import Mathlib

/-!
Verification of the audio post-processing core of the TTS-Generator repository.

The embedding models the offline rendering pipeline of
`src/services/geminiService.ts` and `src/services/audioUtils.ts`, the
automation-curve evaluation and download handler of the application root
component, and the retry policy of `generateSpeech`.

Conventions of the embedding:
- JS 64-bit floats are idealised as `ℚ`; the places where the code can produce
  non-finite values (division by zero in the duration estimate) are modelled by
  the explicit type `JNum` with JS semantics for the operations the code uses.
- `Math.pow` applied to possibly irrational powers (`2^(semitone/12)`,
  `(1-n)^decay`) is abstracted as an explicit function argument (`pow2`, `pw`),
  so every statement quantifies over the transcendental primitive instead of
  fixing one model of it.
- `Math.random()*2-1` white noise is abstracted as explicit sample streams
  `noiseL`, `noiseR`.
- An `AudioBuffer` is a sample rate together with planar channel data.
-/

/-- An `AudioBuffer`: sample rate plus planar per-channel float data. -/
structure ABuffer where
  sampleRate : ℕ
  channels : List (List ℚ)
  deriving DecidableEq

/-- Channel 0 of a buffer (`buffer.getChannelData(0)`). -/
def ABuffer.chan0 (b : ABuffer) : List ℚ := b.channels.headD []

/-- Frame count of a buffer (`buffer.length`; channels have equal length). -/
def ABuffer.length (b : ABuffer) : ℕ := b.chan0.length

/-- Seconds of audio in a buffer (`buffer.duration = length / sampleRate`). -/
def ABuffer.duration (b : ABuffer) : ℚ := (b.length : ℚ) / (b.sampleRate : ℚ)

/-- The effect settings record from `types.ts` (each field in [0,1]). -/
structure AudioEffects where
  distortion : ℚ
  delay : ℚ
  reverb : ℚ
  deriving DecidableEq

/-- A pitch automation point from `types.ts`: normalized time `x`, semitone `y`.
The `id` field is irrelevant to the numeric pipeline and omitted. -/
structure PitchPoint where
  x : ℚ
  y : ℚ
  deriving DecidableEq

/-! ## audioUtils.ts -/

/-- Embeds `createImpulseResponse` (src/services/audioUtils.ts:20-35) with all
arguments explicit.  `pw a d` abstracts `Math.pow(a, d)`; `noiseL`/`noiseR`
abstract the two independent `Math.random()*2-1` streams.  The JS loop
`for (i = 0; i < length; i++)` over the float `length = sampleRate*duration`
executes `⌈length⌉` iterations. -/
def createImpulseResponse (pw : ℚ → ℚ → ℚ) (sampleRate : ℕ)
    (noiseL noiseR : ℕ → ℚ) (duration decay : ℚ) : ABuffer :=
  let len : ℚ := (sampleRate : ℚ) * duration
  let n : ℕ := (Int.ceil len).toNat
  { sampleRate := sampleRate
    channels := [(List.range n).map (fun i => noiseL i * pw (1 - (i : ℚ) / len) decay),
                 (List.range n).map (fun i => noiseR i * pw (1 - (i : ℚ) / len) decay)] }

/-- `createImpulseResponse` invoked with `duration` and `decay` omitted: the JS
declaration `createImpulseResponse(ctx, duration = 2.0, decay = 2.0)` fills in
the default values `2.0` and `2.0`. -/
def createImpulseResponseDefault (pw : ℚ → ℚ → ℚ) (sampleRate : ℕ)
    (noiseL noiseR : ℕ → ℚ) : ABuffer :=
  createImpulseResponse pw sampleRate noiseL noiseR 2 2

/-- Embeds the distortion branch of `updateEffectParams`
(src/services/audioUtils.ts:117-122): the waveshaper table is set (with curve
amount `distortion * 400`) when `distortion > 0.01` and cleared to `null`
otherwise.  The value carried is the curve amount `k`; the table itself is
`makeDistortionCurve k`. -/
def realtimeDistortionCurve (distortion : ℚ) : Option ℚ :=
  if distortion > 1/100 then some (distortion * 400) else none

/-- Embeds the delay feedback gain set by `updateEffectParams`
(src/services/audioUtils.ts:126): `settings.delay * 0.6`. -/
def realtimeDelayFeedbackGain (delay : ℚ) : ℚ := delay * (3/5)

/-- Embeds the reverb wet gain set by `updateEffectParams`
(src/services/audioUtils.ts:144): `settings.reverb * 2.0`. -/
def realtimeReverbGain (reverb : ℚ) : ℚ := reverb * 2

/-! ## The offline effect graph (renderProcessedAudio, geminiService.ts:221-270) -/

/-- The shape of the offline effect graph built per render: the optional
waveshaper stage carries its curve amount, the optional delay path carries
(feedback gain, wet volume), the optional reverb path carries its wet gain. -/
structure OfflineGraph where
  distortionAmount : Option ℚ
  delayPath : Option (ℚ × ℚ)
  reverbPath : Option ℚ
  deriving DecidableEq

/-- Embeds the conditional graph assembly of `renderProcessedAudio`
(src/services/geminiService.ts:226-268): distortion stage iff
`effects.distortion > 0.01` with curve amount `distortion * 400`; delay path iff
`effects.delay > 0.01` with feedback gain `delay * 0.6` and wet volume
`delay * 0.5`; reverb path iff `effects.reverb > 0.01` with wet gain
`reverb * 2.0`. -/
def buildOfflineGraph (effects : AudioEffects) : OfflineGraph :=
  { distortionAmount :=
      if effects.distortion > 1/100 then some (effects.distortion * 400) else none
    delayPath :=
      if effects.delay > 1/100 then some (effects.delay * (3/5), effects.delay * (1/2)) else none
    reverbPath :=
      if effects.reverb > 1/100 then some (effects.reverb * 2) else none }

/-- Amplitude of the n-th echo of a unit impulse through the feedback loop
`delay -> feedback gain -> delay` (the discrete recurrence
`out[k] = in[k] + gain * out[k - delaySamples]` of spec section 9): each trip
around the loop multiplies the amplitude by the feedback gain. -/
def echoAmp (g : ℚ) : ℕ → ℚ
  | 0 => 1
  | n + 1 => g * echoAmp g n

/-! ## JS float edge semantics for the duration estimate -/

/-- A JS number as needed by the render-length computation: finite, one of the
infinities, or NaN. -/
inductive JNum where
  | fin (q : ℚ)
  | inf
  | ninf
  | nan
  deriving DecidableEq

/-- JS division of finite values: division by zero produces a signed infinity
(or NaN for 0/0). -/
def jdiv (a b : ℚ) : JNum :=
  if b = 0 then (if a = 0 then JNum.nan else if 0 < a then JNum.inf else JNum.ninf)
  else JNum.fin (a / b)

/-- JS multiplication of a number by a finite value. -/
def jmulFin : JNum → ℚ → JNum
  | JNum.fin q, c => JNum.fin (q * c)
  | JNum.inf, c => if 0 < c then JNum.inf else if c < 0 then JNum.ninf else JNum.nan
  | JNum.ninf, c => if 0 < c then JNum.ninf else if c < 0 then JNum.inf else JNum.nan
  | JNum.nan, _ => JNum.nan

/-- JS `Math.ceil`, the identity on non-finite values. -/
def jceil : JNum → JNum
  | JNum.fin q => JNum.fin ((Int.ceil q : ℤ) : ℚ)
  | x => x

/-- JS addition of a finite value, absorbing on non-finite values. -/
def jaddFin : JNum → ℚ → JNum
  | JNum.fin q, c => JNum.fin (q + c)
  | x, _ => x

/-! ## renderProcessedAudio: duration estimation and allocation -/

/-- Embeds `minPitch` of `renderProcessedAudio`
(src/services/geminiService.ts:179-182): `0` for an empty point list, otherwise
`Math.min(...pitchPoints.map(p => p.y))`. -/
def minPitch (pitchPoints : List PitchPoint) : ℚ :=
  match pitchPoints.map PitchPoint.y with
  | [] => 0
  | y :: ys => ys.foldl min y

/-- Embeds the pre-allocation phase of `renderProcessedAudio`
(src/services/geminiService.ts:171-199): the duration estimate followed by the
render-length computation that is handed to the `OfflineAudioContext`
constructor.  `effects` is `none` when the caller omits the argument (JS
`undefined`); the member access `effects.reverb` on `undefined` then raises a
TypeError, exactly after the duration estimate and before any allocation.
`pow2 q` abstracts `Math.pow(2, q)`.  The function performs no other check:
a zero or negative effective speed flows through `jdiv` into the returned
render length. -/
def renderPrep (b : ABuffer) (speed : ℚ) (pitchPoints : List PitchPoint)
    (effects : Option AudioEffects) (pow2 : ℚ → ℚ) : Except String JNum :=
  let mp := minPitch pitchPoints
  let minRateFactor := pow2 (mp / 12)
  let minEffectiveSpeed := speed * minRateFactor
  let estimatedMaxDuration := jdiv b.duration minEffectiveSpeed
  match effects with
  | none => Except.error "TypeError: cannot read properties of undefined"
  | some fx =>
    let tailDuration : ℚ := if fx.reverb > 0 ∨ fx.delay > 0 then 4 else 3/2
    Except.ok (jaddFin (jceil (jmulFin estimatedMaxDuration (b.sampleRate : ℚ)))
      ((b.sampleRate : ℚ) * tailDuration))

/-- Embeds the render invocation of `handleDownload` (App component, both
variants, src/unnamed/part_002:113 and src/unnamed/part_003:113):
`renderProcessedAudio(audioBufferRef.current, speed, pitchPoints)` — the
`effects` argument is omitted, so the renderer receives `undefined`. -/
def handleDownloadRender (b : ABuffer) (speed : ℚ) (pitchPoints : List PitchPoint)
    (pow2 : ℚ → ℚ) : Except String JNum :=
  renderPrep b speed pitchPoints none pow2

/-! ## Spec-side duration estimator (spec section 4.4), for comparison -/

/-- Modelled from the spec words: `minSemitone = min(curve values, default 0)`. -/
def specMinSemitone (ps : List PitchPoint) : ℚ :=
  ((ps.map PitchPoint.y).min?).getD 0

/-- Modelled from the spec words: `worstCaseDuration = sourceDuration /
(speedMultiplier * 2^(minSemitone/12))`. -/
def specWorstCaseDuration (srcDuration speedMultiplier : ℚ) (ps : List PitchPoint)
    (pow2 : ℚ → ℚ) : ℚ :=
  srcDuration / (speedMultiplier * pow2 (specMinSemitone ps / 12))

/-- Modelled from the spec words: the safety tail is 1.5 s if neither delay nor
reverb is active (positive), 4.0 s otherwise. -/
def specTail (fx : AudioEffects) : ℚ :=
  if ¬ (fx.delay > 0) ∧ ¬ (fx.reverb > 0) then 3/2 else 4

/-! ## Silence trimmer (trimSilence, geminiService.ts:144-168) -/

/-- The silence test of the trimmer scan: `Math.abs(data[i]) < 0.001`. -/
def isQuiet (q : ℚ) : Bool := decide (|q| < 1/1000)

/-- How far the backward `while` scan of `trimSilence` walks: the length of the
longest quiet suffix of the channel data (the loop leaves `lastIndex` at
`data.length - 1 - trailingQuiet data`). -/
def trailingQuiet (data : List ℚ) : ℕ := (data.reverse.takeWhile isQuiet).length

/-- `copyToChannel(slice, i)` into the zero-initialised buffer
`ctx.createBuffer(channels, n, sampleRate)`: the slice, zero-padded to `n`. -/
def padTo (n : ℕ) (l : List ℚ) : List ℚ := l ++ List.replicate (n - l.length) 0

/-- Embeds `trimSilence` (src/services/geminiService.ts:144-168): scan channel
0 backward past samples with |x| < 0.001; a fully quiet channel
(`lastIndex < 0`) returns the buffer unchanged; otherwise keep up to 100 ms of
padding (`Math.floor(sampleRate * 0.1)` samples, bounded by the available
tail); if that removes fewer than ~100 samples
(`newLength >= buffer.length - 100`) return the buffer unchanged; otherwise
truncate every channel to `newLength` samples. -/
def trimSilence (b : ABuffer) : ABuffer :=
  let data := b.chan0
  let tq := trailingQuiet data
  if data.length ≤ tq then b
  else
    let lastIndex := data.length - 1 - tq
    let padding := min (b.length - 1 - lastIndex) (Int.floor ((b.sampleRate : ℚ) * (1/10))).toNat
    let newLength := lastIndex + 1 + padding
    if b.length ≤ newLength + 100 then b
    else { sampleRate := b.sampleRate
           channels := b.channels.map (fun ch => padTo newLength (ch.take newLength)) }

/-! ## Automation curve evaluation (getPitchAt, App component lines 138-153) -/

/-- Embeds `[...pitchPoints].sort((a, b) => a.x - b.x)`: a stable sort by
ascending time.  `List.insertionSort` with the non-strict comparison is stable,
matching the JS specification of `Array.prototype.sort`. -/
def sortByTime (ps : List PitchPoint) : List PitchPoint :=
  List.insertionSort (fun a b => a.x ≤ b.x) ps

instance : DecidableRel (fun a b : PitchPoint => a.x ≤ b.x) :=
  fun a b => inferInstanceAs (Decidable (a.x ≤ b.x))

instance : IsTotal PitchPoint (fun a b => a.x ≤ b.x) :=
  ⟨fun a b => le_total a.x b.x⟩

instance : IsTrans PitchPoint (fun a b => a.x ≤ b.x) :=
  ⟨fun _ _ _ h1 h2 => le_trans h1 h2⟩

/-- The linear interpolation of the loop body:
`p1.y + ratio * (p2.y - p1.y)` with `ratio = (t - p1.x) / (p2.x - p1.x)`. -/
def lerpSeg (p q : PitchPoint) (t : ℚ) : ℚ :=
  p.y + (t - p.x) / (q.x - p.x) * (q.y - p.y)

/-- Embeds the bracketing-pair loop of `getPitchAt` (lines 144-151): walk the
consecutive pairs of the sorted list and interpolate in the first pair whose
interval contains `t`; the fall-through return value is 0. -/
def interpPairs : List PitchPoint → ℚ → ℚ
  | p1 :: p2 :: rest, t =>
    if p1.x ≤ t ∧ t ≤ p2.x then lerpSeg p1 p2 t
    else interpPairs (p2 :: rest) t
  | _, _ => 0

/-- Embeds `getPitchAt` (App component lines 138-153): 0 for an empty list;
the first sorted point's value for `t` at or before its time; else the last
sorted point's value for `t` at or after its time; else the bracketing-pair
interpolation. -/
def getPitchAt (ps : List PitchPoint) (t : ℚ) : ℚ :=
  match sortByTime ps with
  | [] => 0
  | p0 :: rest =>
    if t ≤ p0.x then p0.y
    else if (rest.getLastD p0).x ≤ t then (rest.getLastD p0).y
    else interpPairs (p0 :: rest) t

/-! ## Container encoder (bufferToWav, geminiService.ts:278-328) -/

/-- Two little-endian bytes of a 16-bit write (`DataView.setUint16(…, true)`),
wrapping modulo 2^16. -/
def u16le (v : ℕ) : List ℕ := [v % 256, v / 256 % 256]

/-- Four little-endian bytes of a 32-bit write (`DataView.setUint32(…, true)`),
wrapping modulo 2^32. -/
def u32le (v : ℕ) : List ℕ :=
  [v % 256, v / 256 % 256, v / 65536 % 256, v / 16777216 % 256]

/-- Two little-endian bytes of a signed 16-bit write (`DataView.setInt16`):
two's complement of a value in [-32768, 32767]. -/
def i16le (v : ℤ) : List ℕ := u16le (v % 65536).toNat

/-- JS `x | 0` on a finite value: truncation toward zero. -/
def jsTrunc (q : ℚ) : ℤ := if 0 ≤ q then Int.floor q else Int.ceil q

/-- Embeds the per-sample conversion of `bufferToWav`
(src/services/geminiService.ts:309-310).  The clamp is
`Math.max(-1, Math.min(1, x))`; the scale condition is the code's
`0.5 + sample < 0`, which by JS operator precedence parses as
`(0.5 + sample) < 0`. -/
def codeSample (x : ℚ) : ℤ :=
  let s := max (-1) (min 1 x)
  jsTrunc (if 1/2 + s < 0 then s * 32768 else s * 32767)

/-- Embeds `bufferToWav` (src/services/geminiService.ts:278-328): the 44 header
bytes written by the `setUint32`/`setUint16` sequence, followed by the
frame-major, channel-minor interleaved signed 16-bit samples.  `totalLen` is
the allocated byte length `buffer.length * numOfChan * 2 + 44`; the data-chunk
size field is written as `length - pos - 4` with `pos = 40`. -/
def bufferToWav (b : ABuffer) : List ℕ :=
  let numOfChan := b.channels.length
  let totalLen := b.length * numOfChan * 2 + 44
  u32le 0x46464952 ++ u32le (totalLen - 8) ++ u32le 0x45564157 ++ u32le 0x20746d66 ++
  u32le 16 ++ u16le 1 ++ u16le numOfChan ++ u32le b.sampleRate ++
  u32le (b.sampleRate * 2 * numOfChan) ++ u16le (numOfChan * 2) ++ u16le 16 ++
  u32le 0x61746164 ++ u32le (totalLen - 40 - 4) ++
  (List.range b.length).flatMap (fun pos =>
    b.channels.flatMap (fun ch => i16le (codeSample (ch.getD pos 0))))

/-- Modelled from the spec (section 4.8): the 44-byte RIFF/WAVE header — group
id "RIFF", total length, "WAVE", format chunk "fmt " of length 16 with
format 1 / channel count / sample rate / byte rate / block align / 16 bits,
then the data chunk id "data" and data length. -/
def wavHeader (b : ABuffer) : List ℕ :=
  let ch := b.channels.length
  let dataLen := b.length * ch * 2
  [82, 73, 70, 70] ++ u32le (36 + dataLen) ++ [87, 65, 86, 69] ++
  [102, 109, 116, 32] ++ u32le 16 ++ u16le 1 ++ u16le ch ++ u32le b.sampleRate ++
  u32le (b.sampleRate * 2 * ch) ++ u16le (ch * 2) ++ u16le 16 ++
  [100, 97, 116, 97] ++ u32le dataLen

/-- Modelled from the spec: the interleaved little-endian signed 16-bit sample
stream under a given per-sample conversion. -/
def wavData (enc : ℚ → ℤ) (b : ABuffer) : List ℕ :=
  (List.range b.length).flatMap (fun pos =>
    b.channels.flatMap (fun ch => i16le (enc (ch.getD pos 0))))

/-- The claim's per-sample conversion, as stated: clamp, then scale by 32768
when the clamped value is negative and by 32767 when it is non-negative,
truncated to integer. -/
def specSampleOrig (x : ℚ) : ℤ :=
  let s := max (-1) (min 1 x)
  jsTrunc (if s < 0 then s * 32768 else s * 32767)

/-- The amended per-sample conversion: clamp, then scale by 32768 when the
clamped value is below -0.5 and by 32767 otherwise, truncated to integer. -/
def specSampleFixed (x : ℚ) : ℤ :=
  let s := max (-1) (min 1 x)
  jsTrunc (if s < -(1/2) then s * 32768 else s * 32767)

/-! ## generateSpeech retry policy (geminiService.ts:100-141) -/

/-- A JS error as inspected by the retry loop: its message string and the
optional numeric `status` property. -/
structure JSError where
  message : String
  status : Option ℤ
  deriving DecidableEq

/-- JS `haystack.includes(pattern)`. -/
def strIncludes (hay pat : String) : Bool :=
  decide (pat.toList <:+: hay.toList)

/-- Embeds the transient-error test of `generateSpeech`
(src/services/geminiService.ts:125): `error.message && (error.message.includes("500")
|| error.message.includes("503") || error.status === 500 || error.status === 503)`.
An empty message is falsy, so it short-circuits the whole test to false. -/
def isServerError (e : JSError) : Bool :=
  (!(e.message == "")) &&
    (strIncludes e.message "500" || strIncludes e.message "503" ||
      e.status == some 500 || e.status == some 503)

/-- Observable outcome of a `generateSpeech` call: success, an error rethrown
as-is, or the wrapper error thrown after retry exhaustion. -/
inductive SpeechOutcome (α : Type) where
  | ok (a : α)
  | raised (e : JSError)
  | unavailable (msg : String)
  deriving DecidableEq

/-- A full run of the retry loop: outcome, the backoff delays actually awaited
(milliseconds, in order), and how many attempts were made. -/
structure SpeechRun (α : Type) where
  outcome : SpeechOutcome α
  delaysMs : List ℕ
  attemptsMade : ℕ
  deriving DecidableEq

/-- Embeds the retry loop of `generateSpeech`
(src/services/geminiService.ts:116-141), unrolled over its three iterations.
`results n` is the outcome of the n-th call to `generateAudioFromModel`.
A non-transient error is rethrown at once; a transient one waits
`attempt * 500` ms (when attempt < 3) and retries; after the third transient
failure the loop exits and throws the wrapper error built from the last
message (`|| "Internal Error"` for a falsy message). -/
def generateSpeech (α : Type) (results : ℕ → Except JSError α) : SpeechRun α :=
  match results 1 with
  | Except.ok a => ⟨SpeechOutcome.ok a, [], 1⟩
  | Except.error e1 =>
    if isServerError e1 then
      match results 2 with
      | Except.ok a => ⟨SpeechOutcome.ok a, [500], 2⟩
      | Except.error e2 =>
        if isServerError e2 then
          match results 3 with
          | Except.ok a => ⟨SpeechOutcome.ok a, [500, 1000], 3⟩
          | Except.error e3 =>
            if isServerError e3 then
              ⟨SpeechOutcome.unavailable ("Gemini Service unavailable. " ++
                (if e3.message == "" then "Internal Error" else e3.message)),
                [500, 1000], 3⟩
            else ⟨SpeechOutcome.raised e3, [500, 1000], 3⟩
        else ⟨SpeechOutcome.raised e2, [500], 2⟩
    else ⟨SpeechOutcome.raised e1, [], 1⟩

/-! ## Helper lemmas -/

theorem echoAmp_eq_pow (g : ℚ) (n : ℕ) : echoAmp g n = g ^ n := by
  induction n with
  | zero => rfl
  | succ n ih => rw [echoAmp, ih, pow_succ, mul_comm]

theorem minPitch_eq_specMinSemitone (ps : List PitchPoint) :
    minPitch ps = specMinSemitone ps := by
  unfold minPitch specMinSemitone
  cases h : ps.map PitchPoint.y with
  | nil => rfl
  | cons y ys => rfl

/-! ## Claim theorems (first group) -/

/-- C2: for every source buffer, base speed, curve and effect settings (and
every model `pow2` of `Math.pow(2, ·)` under which the effective speed is
nonzero), the offline renderer computes a render length equal to
`ceil(worstCaseDuration * sampleRate)` plus `sampleRate` times the safety tail,
where `worstCaseDuration = sourceDuration / (speedMultiplier *
2^(minSemitone/12))`, `minSemitone` is the minimum curve value (0 for an empty
curve), and the tail is 1.5 s if neither delay nor reverb is active and 4.0 s
otherwise. -/
theorem renderPrep_allocation (b : ABuffer) (speed : ℚ) (ps : List PitchPoint)
    (fx : AudioEffects) (pow2 : ℚ → ℚ)
    (h : speed * pow2 (specMinSemitone ps / 12) ≠ 0) :
    renderPrep b speed ps (some fx) pow2 =
      Except.ok (JNum.fin
        (((Int.ceil (specWorstCaseDuration b.duration speed ps pow2 * (b.sampleRate : ℚ)) : ℤ) : ℚ)
          + (b.sampleRate : ℚ) * specTail fx)) := by
  simp only [renderPrep, specWorstCaseDuration, specTail]
  rw [minPitch_eq_specMinSemitone]
  simp only [jdiv]
  rw [if_neg h]
  have htail : (if fx.reverb > 0 ∨ fx.delay > 0 then (4 : ℚ) else 3/2)
      = (if ¬ (fx.delay > 0) ∧ ¬ (fx.reverb > 0) then (3/2 : ℚ) else 4) := by
    by_cases h1 : fx.reverb > 0 <;> by_cases h2 : fx.delay > 0 <;> simp [h1, h2]
  rw [htail]
  rfl

/-- C2 witness: a concrete instantiation — a 1-sample 24 kHz mono buffer, unit
speed, empty curve, all effects zero — renders to length
`ceil(1/24000 * 24000) + 24000 * 1.5 = 36001`. -/
theorem renderPrep_allocation_witness :
    (1 : ℚ) * (fun _ : ℚ => (1 : ℚ)) (specMinSemitone [] / 12) ≠ 0 ∧
    renderPrep ⟨24000, [[0]]⟩ 1 [] (some ⟨0, 0, 0⟩) (fun _ => 1) =
      Except.ok (JNum.fin 36001) := by
  constructor
  · norm_num
  · rw [renderPrep_allocation ⟨24000, [[0]]⟩ 1 [] ⟨0, 0, 0⟩ (fun _ => 1) (by norm_num)]
    have hd : (ABuffer.duration ⟨24000, [[0]]⟩) = 1 / 24000 := by
      simp [ABuffer.duration, ABuffer.length, ABuffer.chan0]
    rw [specWorstCaseDuration, hd, specTail]
    norm_num [specMinSemitone]

/-- C4: the claim calls for a fail-fast allocation error on non-positive
effective speed, but the code has no such guard: at speed 0 (empty curve, any
nonempty buffer) the duration estimate divides by zero, and the renderer
returns the render length `Infinity` to the `OfflineAudioContext` constructor
instead of failing beforehand. -/
theorem renderPrep_zero_speed_no_guard :
    renderPrep ⟨24000, [[1]]⟩ 0 [] (some ⟨0, 0, 0⟩) (fun _ => 1) =
      Except.ok JNum.inf := by
  unfold renderPrep minPitch
  have hd : (ABuffer.duration ⟨24000, [[1]]⟩) = 1 / 24000 := by
    simp [ABuffer.duration, ABuffer.length, ABuffer.chan0]
  rw [hd]
  have hz : (0 : ℚ) * (fun _ : ℚ => (1 : ℚ)) (0 / 12) = 0 := by norm_num
  simp only [List.map_nil, hz]
  rw [jdiv]
  norm_num [jmulFin, jceil, jaddFin]

/-- C10: the offline renderer reads the effect-settings argument
unconditionally, and every `handleDownload` in the application omits it;
therefore every download request fails with a TypeError inside the renderer,
before any output buffer is produced. -/
theorem handleDownload_render_fails (b : ABuffer) (speed : ℚ)
    (ps : List PitchPoint) (pow2 : ℚ → ℚ) :
    handleDownloadRender b speed ps pow2 =
      Except.error "TypeError: cannot read properties of undefined" := rfl

/-- C6 counterexample: at distortion exactly 0.01 the threshold `≥ 0.01` of the
claim says the waveshaper is included, but both the offline graph and the
real-time parameter update bypass it (strict `> 0.01` in the code). -/
theorem distortion_threshold_cex :
    (1 : ℚ)/100 ≥ 1/100 ∧
    (buildOfflineGraph ⟨1/100, 0, 0⟩).distortionAmount = none ∧
    realtimeDistortionCurve (1/100) = none := by
  refine ⟨le_refl _, ?_, ?_⟩
  · simp [buildOfflineGraph]
  · simp [realtimeDistortionCurve]

/-- C6 (amended): the waveshaping stage is included, with table parameter
`k = distortion * 400`, exactly when `distortion > 0.01`, and bypassed exactly
when `distortion ≤ 0.01` — in both the offline graph and the real-time effect
update. -/
theorem distortion_threshold (e : AudioEffects) :
    ((buildOfflineGraph e).distortionAmount = some (e.distortion * 400) ↔ 1/100 < e.distortion) ∧
    ((buildOfflineGraph e).distortionAmount = none ↔ e.distortion ≤ 1/100) ∧
    (realtimeDistortionCurve e.distortion = some (e.distortion * 400) ↔ 1/100 < e.distortion) ∧
    (realtimeDistortionCurve e.distortion = none ↔ e.distortion ≤ 1/100) := by
  by_cases h : e.distortion > 1/100
  · refine ⟨?_, ?_, ?_, ?_⟩ <;>
      simp [buildOfflineGraph, realtimeDistortionCurve, h, not_le.mpr h]
  · refine ⟨?_, ?_, ?_, ?_⟩ <;>
      simp [buildOfflineGraph, realtimeDistortionCurve, h, not_lt.mp h]

/-- C9: for every delay setting in [0,1], the feedback gain configured by both
the offline render graph and the real-time parameter update is `delay * 0.6`,
hence strictly below 1, and the echo amplitudes of a unit impulse through the
feedback loop tend to zero. -/
theorem delay_feedback_safe (e : AudioEffects) (h0 : 0 ≤ e.delay) (h1 : e.delay ≤ 1) :
    realtimeDelayFeedbackGain e.delay = e.delay * (3/5) ∧
    (∀ g v, (buildOfflineGraph e).delayPath = some (g, v) → g = e.delay * (3/5)) ∧
    e.delay * (3/5) < 1 ∧
    Filter.Tendsto (fun n => echoAmp (e.delay * (3/5)) n) Filter.atTop (nhds 0) := by
  have hlt : e.delay * (3/5) < 1 := by nlinarith
  have hnn : 0 ≤ e.delay * (3/5) := by positivity
  refine ⟨rfl, ?_, hlt, ?_⟩
  · intro g v hgv
    simp only [buildOfflineGraph] at hgv
    by_cases h : e.delay > 1/100
    · rw [if_pos h] at hgv
      have h2 := congrArg Prod.fst (Option.some.inj hgv)
      simpa using h2.symm
    · rw [if_neg h] at hgv
      simp at hgv
  · simp only [echoAmp_eq_pow]
    exact tendsto_pow_atTop_nhds_zero_of_lt_one hnn hlt

/-- C9 witness: the guarantees instantiated at delay = 1/2 (gain 0.3). -/
theorem delay_feedback_safe_witness :
    realtimeDelayFeedbackGain (1/2) = (1/2 : ℚ) * (3/5) ∧
    (∀ g v, (buildOfflineGraph ⟨0, 1/2, 0⟩).delayPath = some (g, v) → g = (1/2 : ℚ) * (3/5)) ∧
    (1/2 : ℚ) * (3/5) < 1 ∧
    Filter.Tendsto (fun n => echoAmp ((1/2 : ℚ) * (3/5)) n) Filter.atTop (nhds 0) :=
  delay_feedback_safe ⟨0, 1/2, 0⟩ (by norm_num) (by norm_num)

/-- C5 counterexample: called without explicit duration and decay arguments,
the impulse response synthesizer uses the JS defaults 2.0 and 2.0, not the 2.5
of the claim: at sample rate 10 the channel length is 20 (not 25), and the
exponent handed to the envelope power is 2 (not 2.5). -/
theorem createImpulseResponse_default_cex :
    ((createImpulseResponseDefault (fun a _ => a) 10 (fun _ => 1) (fun _ => 1)).chan0).length = 20 ∧
    (20 : ℕ) ≠ 25 ∧
    ((createImpulseResponseDefault (fun _ d => d) 10 (fun _ => 1) (fun _ => 1)).chan0).getD 0 0 = 2 ∧
    (2 : ℚ) ≠ 5/2 := by
  have hn : ((Int.ceil ((10 : ℚ) * 2)).toNat) = 20 := by
    rw [show ((10 : ℚ) * 2) = ((20 : ℕ) : ℚ) by norm_num, Int.ceil_natCast,
      Int.toNat_natCast]
  refine ⟨?_, by norm_num, ?_, by norm_num⟩
  · simp [createImpulseResponseDefault, createImpulseResponse, ABuffer.chan0, hn]
  · simp [createImpulseResponseDefault, createImpulseResponse, ABuffer.chan0, hn,
      List.getD_eq_getElem?_getD]

/-- C5 (amended): without explicit duration and decay arguments the impulse
response synthesizer produces a two-channel buffer of length
`sampleRate * duration` with default duration 2.0 s, each sample being the
noise sample multiplied by the envelope `pw (1 - i/length) decay` with default
decay 2.0. -/
theorem createImpulseResponse_default_spec (sr : ℕ) (pw : ℚ → ℚ → ℚ)
    (nL nR : ℕ → ℚ) (i : ℕ) (hi : i < 2 * sr) :
    (createImpulseResponseDefault pw sr nL nR).channels.length = 2 ∧
    (createImpulseResponseDefault pw sr nL nR).chan0.length = 2 * sr ∧
    ((createImpulseResponseDefault pw sr nL nR).channels.getD 1 []).length = 2 * sr ∧
    (createImpulseResponseDefault pw sr nL nR).chan0.getD i 0
      = nL i * pw (1 - (i : ℚ) / ((sr : ℚ) * 2)) 2 ∧
    ((createImpulseResponseDefault pw sr nL nR).channels.getD 1 []).getD i 0
      = nR i * pw (1 - (i : ℚ) / ((sr : ℚ) * 2)) 2 := by
  have hn : ((Int.ceil ((sr : ℚ) * 2)).toNat) = 2 * sr := by
    have h2 : ((sr : ℚ) * 2) = ((2 * sr : ℕ) : ℚ) := by push_cast; ring
    rw [h2, Int.ceil_natCast, Int.toNat_natCast]
  refine ⟨?_, ?_, ?_, ?_, ?_⟩
  · simp [createImpulseResponseDefault, createImpulseResponse]
  · simp [createImpulseResponseDefault, createImpulseResponse, ABuffer.chan0, hn]
  · simp [createImpulseResponseDefault, createImpulseResponse, hn]
  · simp [createImpulseResponseDefault, createImpulseResponse, ABuffer.chan0, hn,
      List.getD_eq_getElem?_getD, List.getElem?_map, List.getElem?_range hi]
  · simp [createImpulseResponseDefault, createImpulseResponse, hn,
      List.getD_eq_getElem?_getD, List.getElem?_map, List.getElem?_range hi]

/-- C5 witness: the amended statement instantiated at sample rate 3, index 1. -/
theorem createImpulseResponse_default_spec_witness :
    (1 < 2 * 3) ∧
    (createImpulseResponseDefault (fun a d => a + d) 3 (fun j => j) (fun _ => 1)).chan0.getD 1 0
      = (1 : ℚ) * ((1 - (1 : ℚ) / ((3 : ℚ) * 2)) + 2) :=
  ⟨by norm_num,
    (createImpulseResponse_default_spec 3 (fun a d => a + d) (fun j => (j : ℚ)) (fun _ => 1) 1
      (by norm_num)).2.2.2.1⟩

/-- C7 counterexample: a 502 Bad Gateway response is a transient server error
(5xx) in the claim's sense, yet the code's test only recognises 500 and 503:
the error is surfaced immediately after a single attempt with no backoff,
not retried three times. -/
theorem generateSpeech_5xx_cex :
    (500 ≤ 502 ∧ 502 < 600) ∧
    generateSpeech Unit (fun _ => Except.error ⟨"Bad Gateway", some 502⟩) =
      ⟨SpeechOutcome.raised ⟨"Bad Gateway", some 502⟩, [], 1⟩ := by
  constructor
  · exact ⟨by norm_num, by norm_num⟩
  · decide

/-- C7 (amended): speech generation makes at most 3 attempts; an error the
code classifies as transient (non-empty message containing "500" or "503", or
status exactly 500 or 503) is retried with a backoff of attempt*500 ms and the
wrapper failure is surfaced only after all 3 attempts are exhausted, while any
error not of that shape is surfaced immediately without further attempts. -/
theorem generateSpeech_retry_policy (α : Type) (results : ℕ → Except JSError α) :
    (generateSpeech α results).attemptsMade ≤ 3 ∧
    (∀ a, results 1 = Except.ok a →
      generateSpeech α results = ⟨SpeechOutcome.ok a, [], 1⟩) ∧
    (∀ e, results 1 = Except.error e → isServerError e = false →
      generateSpeech α results = ⟨SpeechOutcome.raised e, [], 1⟩) ∧
    (∀ e1 e2, results 1 = Except.error e1 → isServerError e1 = true →
      results 2 = Except.error e2 → isServerError e2 = false →
      generateSpeech α results = ⟨SpeechOutcome.raised e2, [500], 2⟩) ∧
    (∀ e1 e2 e3, results 1 = Except.error e1 → isServerError e1 = true →
      results 2 = Except.error e2 → isServerError e2 = true →
      results 3 = Except.error e3 → isServerError e3 = false →
      generateSpeech α results = ⟨SpeechOutcome.raised e3, [500, 1000], 3⟩) ∧
    (∀ e1 e2 e3, results 1 = Except.error e1 → isServerError e1 = true →
      results 2 = Except.error e2 → isServerError e2 = true →
      results 3 = Except.error e3 → isServerError e3 = true →
      generateSpeech α results =
        ⟨SpeechOutcome.unavailable ("Gemini Service unavailable. " ++
          (if e3.message == "" then "Internal Error" else e3.message)),
          [500, 1000], 3⟩) := by
  refine ⟨?_, ?_, ?_, ?_, ?_, ?_⟩
  · unfold generateSpeech
    repeat' split
    all_goals simp
  · intro a h1
    unfold generateSpeech
    rw [h1]
  · intro e h1 hs
    unfold generateSpeech
    rw [h1]
    simp [hs]
  · intro e1 e2 h1 hs1 h2 hs2
    unfold generateSpeech
    rw [h1, h2]
    simp [hs1, hs2]
  · intro e1 e2 e3 h1 hs1 h2 hs2 h3 hs3
    unfold generateSpeech
    rw [h1, h2, h3]
    simp [hs1, hs2, hs3]
  · intro e1 e2 e3 h1 hs1 h2 hs2 h3 hs3
    unfold generateSpeech
    rw [h1, h2, h3]
    simp [hs1, hs2, hs3]

/-- C7 witness: three consecutive 503 failures are retried with backoff 500 ms
then 1000 ms and surfaced as the wrapper error after the third attempt. -/
theorem generateSpeech_retry_policy_witness :
    isServerError ⟨"oops 503", some 503⟩ = true ∧
    generateSpeech Unit (fun _ => Except.error ⟨"oops 503", some 503⟩) =
      ⟨SpeechOutcome.unavailable ("Gemini Service unavailable. " ++
        (if ("oops 503" == "") then "Internal Error" else "oops 503")),
        [500, 1000], 3⟩ :=
  ⟨by decide,
    (generateSpeech_retry_policy Unit
        (fun _ => Except.error ⟨"oops 503", some 503⟩)).2.2.2.2.2
      ⟨"oops 503", some 503⟩ ⟨"oops 503", some 503⟩ ⟨"oops 503", some 503⟩
      rfl (by decide) rfl (by decide) rfl (by decide)⟩

theorem codeSample_eq_fixed (x : ℚ) : codeSample x = specSampleFixed x := by
  simp only [codeSample, specSampleFixed]
  by_cases h : (1 : ℚ)/2 + max (-1) (min 1 x) < 0
  · rw [if_pos h, if_pos (by linarith)]
  · rw [if_neg h, if_neg (by intro hc; exact h (by linarith))]

theorem bufferToWav_split (b : ABuffer) :
    bufferToWav b = wavHeader b ++ wavData codeSample b := by
  simp only [bufferToWav, wavHeader, wavData]
  have e1 : b.length * b.channels.length * 2 + 44 - 8
      = 36 + b.length * b.channels.length * 2 := by omega
  have e2 : b.length * b.channels.length * 2 + 44 - 40 - 4
      = b.length * b.channels.length * 2 := by omega
  rw [e1, e2, show u32le 0x46464952 = [82, 73, 70, 70] from by decide,
    show u32le 0x45564157 = [87, 65, 86, 69] from by decide,
    show u32le 0x20746d66 = [102, 109, 116, 32] from by decide,
    show u32le 0x61746164 = [100, 97, 116, 97] from by decide]

theorem wavHeader_length (b : ABuffer) : (wavHeader b).length = 44 := by
  simp [wavHeader, u32le, u16le]

/-- C1 (amended): for every buffer, the container encoder produces the 44-byte
RIFF/WAVE header followed by the interleaved little-endian signed 16-bit
samples, where each float sample is clamped to [-1,1] and then scaled by 32768
when the clamped value is below -0.5 and by 32767 otherwise, truncated to an
integer. -/
theorem bufferToWav_layout (b : ABuffer) :
    bufferToWav b = wavHeader b ++ wavData specSampleFixed b ∧
    (wavHeader b).length = 44 := by
  refine ⟨?_, wavHeader_length b⟩
  rw [bufferToWav_split]
  congr 1
  simp only [wavData, codeSample_eq_fixed]

/-- C1 counterexample: on the one-frame mono buffer holding the sample -1/4
the encoder emits the byte pair of -8191 (the clamped value is negative but
not below -0.5, so the code scales by 32767), while the claim's stated
scaling (32768 on every negative sample) would emit the byte pair of -8192. -/
theorem bufferToWav_scaling_cex :
    bufferToWav ⟨24000, [[-(1/4)]]⟩ ≠
      wavHeader ⟨24000, [[-(1/4)]]⟩ ++ wavData specSampleOrig ⟨24000, [[-(1/4)]]⟩ := by
  have hdata : ∀ enc : ℚ → ℤ, wavData enc ⟨24000, [[-(1/4)]]⟩ = i16le (enc (-(1/4))) := by
    intro enc
    simp [wavData, ABuffer.length, ABuffer.chan0, List.range_succ]
  have hclamp : max (-1 : ℚ) (min 1 (-(1/4))) = -(1/4) := by
    rw [min_eq_right (by norm_num), max_eq_right (by norm_num)]
  have hsample : codeSample (-(1/4) : ℚ) = -8191 := by
    simp only [codeSample, hclamp]
    rw [if_neg (by norm_num), jsTrunc, if_neg (by norm_num)]
    exact Int.ceil_eq_iff.mpr ⟨by norm_num, by norm_num⟩
  have hspec : specSampleOrig (-(1/4) : ℚ) = -8192 := by
    simp only [specSampleOrig, hclamp]
    rw [if_pos (by norm_num), jsTrunc, if_neg (by norm_num),
      show (-(1/4) * 32768 : ℚ) = ((-8192 : ℤ) : ℚ) from by norm_num, Int.ceil_intCast]
  intro h
  rw [bufferToWav_split] at h
  have h2 := List.append_cancel_left h
  rw [hdata, hdata, hsample, hspec] at h2
  exact absurd h2 (by decide)

theorem sortByTime_sorted (ps : List PitchPoint) :
    (sortByTime ps).Sorted (fun a b => a.x ≤ b.x) :=
  List.sorted_insertionSort _ ps

theorem sortByTime_perm (ps : List PitchPoint) : (sortByTime ps).Perm ps :=
  List.perm_insertionSort _ ps

theorem sortByTime_strict (ps : List PitchPoint)
    (hd : ps.Pairwise (fun a b => a.x ≠ b.x)) :
    (sortByTime ps).Pairwise (fun a b => a.x < b.x) := by
  have hne : (sortByTime ps).Pairwise (fun a b => a.x ≠ b.x) :=
    ((sortByTime_perm ps).pairwise_iff (fun h => Ne.symm h)).mpr hd
  have hle : (sortByTime ps).Pairwise (fun a b => a.x ≤ b.x) := sortByTime_sorted ps
  exact (hle.and hne).imp (fun h => lt_of_le_of_ne h.1 h.2)

theorem pairwise_lt_getElem {l : List PitchPoint}
    (h : l.Pairwise (fun a b => a.x < b.x)) {i j : ℕ}
    (hi : i < l.length) (hj : j < l.length) (hij : i < j) : l[i].x < l[j].x :=
  List.pairwise_iff_getElem.mp h i j hi hj hij

theorem interpPairs_bracket (l : List PitchPoint) :
    ∀ (t : ℚ) (i : ℕ) (p q : PitchPoint),
      l.Pairwise (fun a b => a.x < b.x) →
      l[i]? = some p → l[i + 1]? = some q →
      p.x ≤ t → t ≤ q.x →
      interpPairs l t = lerpSeg p q t := by
  induction l with
  | nil => intro t i p q _ h1 _ _ _; simp at h1
  | cons p1 tail ih =>
    intro t i p q hpair h1 h2 hpt htq
    cases tail with
    | nil =>
      rcases i with _ | j <;> simp at h2
    | cons p2 rest =>
      rw [interpPairs]
      cases i with
      | zero =>
        have hp : p1 = p := by simpa using h1
        have hq : p2 = q := by simpa using h2
        subst hp
        subst hq
        rw [if_pos ⟨hpt, htq⟩]
      | succ j =>
        have h1' : (p2 :: rest)[j]? = some p := by simpa using h1
        have h2' : (p2 :: rest)[j + 1]? = some q := by simpa using h2
        have hpairT : (p2 :: rest).Pairwise (fun a b => a.x < b.x) := hpair.of_cons
        obtain ⟨hjlen, hjp⟩ := List.getElem?_eq_some_iff.mp h1'
        by_cases hc : p1.x ≤ t ∧ t ≤ p2.x
        · have hj0 : j = 0 := by
            by_contra hne
            have hpos : 0 < j := Nat.pos_of_ne_zero hne
            have hlt : (p2 :: rest)[0].x < (p2 :: rest)[j].x :=
              pairwise_lt_getElem hpairT (by simp) hjlen hpos
            rw [hjp] at hlt
            simp only [List.getElem_cons_zero] at hlt
            have : p.x ≤ p2.x := le_trans hpt hc.2
            linarith
          have hp : p2 = p := by
            subst hj0
            simpa using h1'
          have htp : t = p2.x := le_antisymm hc.2 (hp ▸ hpt)
          have h12 : p1.x < p2.x := (List.pairwise_cons.mp hpair).1 p2 (by simp)
          rw [if_pos hc, lerpSeg, lerpSeg, htp, ← hp]
          have hne1 : p2.x - p1.x ≠ 0 := sub_ne_zero.mpr (ne_of_gt h12)
          rw [div_self hne1, one_mul, sub_self, zero_div, zero_mul, add_zero]
          ring
        · rw [if_neg hc]
          exact ih t j p q hpairT h1' h2' hpt htq

/-- C3 counterexample: on the degenerate curve with two points sharing time 0,
evaluation at t = 0 returns the first sorted point's value 1, although t is
also at-or-after the last sorted point's time, whose value is 2 — the claim's
last-point clause fails for duplicate-time curves. -/
theorem getPitchAt_duplicate_cex :
    getPitchAt [⟨0, 1⟩, ⟨0, 2⟩] 0 = 1 ∧
    (sortByTime [⟨0, 1⟩, ⟨0, 2⟩]).getLast? = some ⟨0, 2⟩ ∧
    ((⟨0, 2⟩ : PitchPoint).x ≤ (0 : ℚ)) ∧
    (1 : ℚ) ≠ 2 := by
  have hs : sortByTime [(⟨0, 1⟩ : PitchPoint), ⟨0, 2⟩] = [⟨0, 1⟩, ⟨0, 2⟩] := by
    simp [sortByTime, List.insertionSort, List.orderedInsert]
  refine ⟨?_, ?_, by norm_num, by norm_num⟩
  · unfold getPitchAt
    rw [hs]
    norm_num
  · rw [hs]
    rfl

theorem x_injOn {l : List PitchPoint} (h : l.Pairwise (fun a b => a.x < b.x)) :
    ∀ a ∈ l, ∀ b ∈ l, a.x = b.x → a = b := by
  induction l with
  | nil => simp
  | cons c tail ih =>
    intro a ha b hb hx
    obtain ⟨hhead, htail⟩ := List.pairwise_cons.mp h
    rcases List.mem_cons.mp ha with rfl | ha2 <;> rcases List.mem_cons.mp hb with rfl | hb2
    · rfl
    · exact absurd hx (ne_of_lt (hhead b hb2))
    · exact absurd hx.symm (ne_of_lt (hhead a ha2))
    · exact ih htail a ha2 b hb2 hx

/-- C3 (amended): curve evaluation returns 0 for an empty curve; for a curve
whose points have pairwise distinct times it returns the first sorted point's
value for t at or before the first time, the last sorted point's value for t
at or after the last time, and the linear interpolation of any bracketing
consecutive pair of the time-sorted points otherwise.  (For duplicate-time
curves the order of the boundary checks makes the first point win, see the
counterexample.) -/
theorem getPitchAt_spec (ps : List PitchPoint) (t : ℚ)
    (hd : ps.Pairwise (fun a b => a.x ≠ b.x)) :
    (ps = [] → getPitchAt ps t = 0) ∧
    (∀ p, (sortByTime ps).head? = some p → t ≤ p.x → getPitchAt ps t = p.y) ∧
    (∀ p, (sortByTime ps).getLast? = some p → p.x ≤ t → getPitchAt ps t = p.y) ∧
    (∀ i p q, (sortByTime ps)[i]? = some p → (sortByTime ps)[i + 1]? = some q →
      p.x ≤ t → t ≤ q.x → getPitchAt ps t = lerpSeg p q t) := by
  have hstrict0 := sortByTime_strict ps hd
  cases hs : sortByTime ps with
  | nil =>
    have hg0 : getPitchAt ps t = 0 := by unfold getPitchAt; rw [hs]
    refine ⟨fun _ => hg0, ?_, ?_, ?_⟩
    · intro p hp _
      simp at hp
    · intro p hp _
      simp at hp
    · intro i p q h1
      simp at h1
  | cons p0 rest =>
    rw [hs] at hstrict0
    have hg : getPitchAt ps t =
        (if t ≤ p0.x then p0.y
         else if (rest.getLastD p0).x ≤ t then (rest.getLastD p0).y
         else interpPairs (p0 :: rest) t) := by
      unfold getPitchAt
      rw [hs]
    have hnpos : 0 < (p0 :: rest).length := by simp
    have hsub : (p0 :: rest).length - 1 < (p0 :: rest).length := Nat.sub_lt hnpos one_pos
    have hL : (p0 :: rest)[(p0 :: rest).length - 1] = rest.getLastD p0 := by
      rw [← List.getLast_eq_getElem (p0 :: rest) (List.cons_ne_nil _ _),
        List.getLast_eq_getLastD]
    refine ⟨?_, ?_, ?_, ?_⟩
    · intro hps
      rw [hps] at hs
      simp [sortByTime, List.insertionSort] at hs
    · intro p hp hpt
      have hp0 : p0 = p := by simpa using hp
      rw [hg, if_pos (by rw [hp0]; exact hpt)]
      exact congrArg PitchPoint.y hp0
    · intro p hp hpt
      have hLp : rest.getLastD p0 = p := by
        rw [List.getLast?_eq_getLast (p0 :: rest) (List.cons_ne_nil _ _),
          List.getLast_eq_getLastD] at hp
        exact Option.some.inj hp
      by_cases hA : t ≤ p0.x
      · have hpmem : p ∈ (p0 :: rest) := by
          rw [← hLp, ← List.getLast_eq_getLastD p0 rest (List.cons_ne_nil p0 rest)]
          exact List.getLast_mem _
        have hge : p0.x ≤ p.x := by
          rcases List.mem_cons.mp hpmem with rfl | hmem
          · exact le_refl _
          · exact le_of_lt ((List.pairwise_cons.mp hstrict0).1 p hmem)
        have hxpq : p.x = p0.x := le_antisymm (le_trans hpt hA) hge
        have hpp0 : p = p0 := x_injOn hstrict0 p hpmem p0 (by simp) hxpq
        rw [hg, if_pos hA]
        exact (congrArg PitchPoint.y hpp0).symm
      · rw [hg, if_neg hA, if_pos (by rw [hLp]; exact hpt), hLp]
    · intro i p q h1 h2 hpt htq
      obtain ⟨hi, hip⟩ := List.getElem?_eq_some_iff.mp h1
      obtain ⟨hj, hjq⟩ := List.getElem?_eq_some_iff.mp h2
      by_cases hA : t ≤ p0.x
      · have hi0 : i = 0 := by
          rcases Nat.eq_zero_or_pos i with h0 | hpos
          · exact h0
          · exfalso
            have hlt : (p0 :: rest)[0].x < (p0 :: rest)[i].x :=
              pairwise_lt_getElem hstrict0 (by simp) hi hpos
            rw [List.getElem_cons_zero, hip] at hlt
            have hple : p.x ≤ p0.x := le_trans hpt hA
            linarith
        subst hi0
        have hp0 : p0 = p := by simpa using hip
        have htx : t = p.x := le_antisymm (by rw [← hp0]; exact hA) hpt
        rw [hg, if_pos hA, lerpSeg, htx, sub_self, zero_div, zero_mul, add_zero]
        exact congrArg PitchPoint.y hp0
      · by_cases hB : (rest.getLastD p0).x ≤ t
        · have hqmem : q ∈ (p0 :: rest) := by
            rw [← hjq]
            exact List.getElem_mem hj
          have hLmem : rest.getLastD p0 ∈ (p0 :: rest) := by
            rw [← List.getLast_eq_getLastD p0 rest (List.cons_ne_nil p0 rest)]
            exact List.getLast_mem _
          have hLq : (p0 :: rest)[(p0 :: rest).length - 1]? = some (rest.getLastD p0) := by
            rw [List.getElem?_eq_getElem hsub, hL]
          have hqle : q.x ≤ (rest.getLastD p0).x := by
            have hle : i + 1 ≤ (p0 :: rest).length - 1 := Nat.le_sub_one_of_lt hj
            rcases lt_or_eq_of_le hle with hlt | heq
            · have hx := pairwise_lt_getElem hstrict0 hj hsub hlt
              rw [hjq, hL] at hx
              exact le_of_lt hx
            · rw [heq] at h2
              have hqLeq := Option.some.inj (hLq.symm.trans h2)
              rw [hqLeq]
          have hxq : q.x = (rest.getLastD p0).x := le_antisymm hqle (le_trans hB htq)
          have hqL : q = rest.getLastD p0 := x_injOn hstrict0 q hqmem _ hLmem hxq
          have htx : t = q.x := le_antisymm htq (by rw [hxq]; exact hB)
          have hpq : p.x < q.x := by
            have hx := pairwise_lt_getElem hstrict0 hi hj (Nat.lt_succ_self i)
            rw [hip, hjq] at hx
            exact hx
          rw [hg, if_neg hA, if_pos hB, ← hqL, lerpSeg, htx]
          have hne1 : q.x - p.x ≠ 0 := sub_ne_zero.mpr (ne_of_gt hpq)
          rw [div_self hne1, one_mul]
          ring
        · rw [hg, if_neg hA, if_neg hB]
          exact interpPairs_bracket (p0 :: rest) t i p q hstrict0 h1 h2 hpt htq

/-- C3 witness: the amended statement instantiated on the two-point curve
(0,0),(1,-12) at t = 1/2, interpolating to -6. -/
theorem getPitchAt_spec_witness :
    List.Pairwise (fun a b : PitchPoint => a.x ≠ b.x) [⟨0, 0⟩, ⟨1, -12⟩] ∧
    getPitchAt [⟨0, 0⟩, ⟨1, -12⟩] (1/2) = -6 := by
  have hd : List.Pairwise (fun a b : PitchPoint => a.x ≠ b.x) [⟨0, 0⟩, ⟨1, -12⟩] := by
    norm_num [List.pairwise_cons]
  refine ⟨hd, ?_⟩
  have hs : sortByTime [(⟨0, 0⟩ : PitchPoint), ⟨1, -12⟩] = [⟨0, 0⟩, ⟨1, -12⟩] := by
    simp [sortByTime, List.insertionSort, List.orderedInsert]
  have h := (getPitchAt_spec [⟨0, 0⟩, ⟨1, -12⟩] (1/2) hd).2.2.2 0 ⟨0, 0⟩ ⟨1, -12⟩
    (by rw [hs]; rfl) (by rw [hs]; rfl) (by norm_num) (by norm_num)
  rw [h, lerpSeg]
  norm_num

theorem takeWhile_stop {α : Type} (p : α → Bool) :
    ∀ l : List α, (l.takeWhile p).length < l.length →
      ∃ a, l[(l.takeWhile p).length]? = some a ∧ p a = false := by
  intro l
  induction l with
  | nil => intro h; simp at h
  | cons a l ih =>
    intro h
    cases hpa : p a with
    | false =>
      refine ⟨a, ?_, hpa⟩
      simp [List.takeWhile_cons, hpa]
    | true =>
      have h2 : (l.takeWhile p).length < l.length := by
        simpa [List.takeWhile_cons, hpa] using h
      obtain ⟨b, hb, hpb⟩ := ih h2
      refine ⟨b, ?_, hpb⟩
      simpa [List.takeWhile_cons, hpa] using hb

theorem takeWhile_le_of_false {α : Type} (p : α → Bool) :
    ∀ (l : List α) (i : ℕ) (a : α), l[i]? = some a → p a = false →
      (l.takeWhile p).length ≤ i := by
  intro l
  induction l with
  | nil => intro i a h _; simp at h
  | cons b l ih =>
    intro i a h hpa
    cases hpb : p b with
    | false => simp [List.takeWhile_cons, hpb]
    | true =>
      cases i with
      | zero =>
        exfalso
        have hba : b = a := by simpa using h
        rw [hba] at hpb
        rw [hpb] at hpa
        exact Bool.noConfusion hpa
      | succ j =>
        have h2 : l[j]? = some a := by simpa using h
        have h3 := ih j a h2 hpa
        simpa [List.takeWhile_cons, hpb] using Nat.succ_le_succ h3

theorem trailingQuiet_le (data : List ℚ) : trailingQuiet data ≤ data.length := by
  have h : List.Sublist (data.reverse.takeWhile isQuiet) data.reverse :=
    List.takeWhile_sublist isQuiet
  have h2 := h.length_le
  rw [List.length_reverse] at h2
  simpa [trailingQuiet] using h2

theorem trailingQuiet_take_le (data : List ℚ) (padding : ℕ)
    (h : trailingQuiet data < data.length) (hpad : padding ≤ trailingQuiet data) :
    trailingQuiet (data.take (data.length - 1 - trailingQuiet data + 1 + padding))
      ≤ padding := by
  obtain ⟨a, ha, hqa⟩ := takeWhile_stop isQuiet data.reverse
    (by rw [List.length_reverse]; exact h)
  have ha1 : data.reverse[trailingQuiet data]? = some a := by
    rw [show trailingQuiet data = (data.reverse.takeWhile isQuiet).length from rfl]
    exact ha
  set nl := data.length - 1 - trailingQuiet data + 1 + padding with hnl
  have hlen : (data.take nl).length = nl := by
    rw [List.length_take]
    omega
  have ha2 : data[data.length - 1 - trailingQuiet data]? = some a := by
    rw [← List.getElem?_reverse h]
    exact ha1
  have htake : (data.take nl)[data.length - 1 - trailingQuiet data]? = some a := by
    rw [List.getElem?_take_of_lt (by omega)]
    exact ha2
  have hrevtake : (data.take nl).reverse[padding]? = some a := by
    rw [List.getElem?_reverse (by rw [hlen]; omega), hlen,
      show nl - 1 - padding = data.length - 1 - trailingQuiet data from by omega]
    exact htake
  have h4 := takeWhile_le_of_false isQuiet (data.take nl).reverse padding a hrevtake hqa
  simpa [trailingQuiet] using h4

theorem trimSilence_of_small_tail (b : ABuffer)
    (h : trailingQuiet b.chan0 ≤ (Int.floor ((b.sampleRate : ℚ) * (1/10))).toNat
       ∨ b.chan0.length ≤ trailingQuiet b.chan0) :
    trimSilence b = b := by
  have hbl : ABuffer.length b = b.chan0.length := rfl
  simp only [trimSilence]
  by_cases h1 : b.chan0.length ≤ trailingQuiet b.chan0
  · rw [if_pos h1]
  · rw [if_neg h1]
    rcases h with hle | hq
    · rw [if_pos (by omega)]
    · exact absurd hq h1

/-- C8: the silence trimmer is idempotent — applying it to its own output
returns that output unchanged: whenever a real trim happens, the retained
padding is at most the 100 ms cap, so the second scan finds a quiet tail no
longer than the cap and the `newLength >= length - 100` early return fires. -/
theorem trimSilence_idem (b : ABuffer) : trimSilence (trimSilence b) = trimSilence b := by
  by_cases h1 : b.chan0.length ≤ trailingQuiet b.chan0
  · have he : trimSilence b = b := trimSilence_of_small_tail b (Or.inr h1)
    rw [he]
    exact he
  · by_cases h2 : ABuffer.length b ≤ b.chan0.length - 1 - trailingQuiet b.chan0 + 1 +
        min (ABuffer.length b - 1 - (b.chan0.length - 1 - trailingQuiet b.chan0))
          (Int.floor ((b.sampleRate : ℚ) * (1/10))).toNat + 100
    · have he : trimSilence b = b := by
        simp only [trimSilence]
        rw [if_neg h1, if_pos h2]
      rw [he]
      exact he
    · have he : trimSilence b =
          { sampleRate := b.sampleRate
            channels := b.channels.map (fun ch =>
              padTo (b.chan0.length - 1 - trailingQuiet b.chan0 + 1 +
                  min (ABuffer.length b - 1 - (b.chan0.length - 1 - trailingQuiet b.chan0))
                    (Int.floor ((b.sampleRate : ℚ) * (1/10))).toNat)
                (ch.take (b.chan0.length - 1 - trailingQuiet b.chan0 + 1 +
                  min (ABuffer.length b - 1 - (b.chan0.length - 1 - trailingQuiet b.chan0))
                    (Int.floor ((b.sampleRate : ℚ) * (1/10))).toNat))) } := by
        simp only [trimSilence]
        rw [if_neg h1, if_neg h2]
      rw [he]
      set T := trailingQuiet b.chan0 with hT
      set K := (Int.floor ((b.sampleRate : ℚ) * (1/10))).toNat with hK
      set nl := b.chan0.length - 1 - T + 1 +
        min (ABuffer.length b - 1 - (b.chan0.length - 1 - T)) K with hnl
      have hA : ABuffer.length b = b.chan0.length := rfl
      have htlt : T < b.chan0.length := not_le.mp h1
      obtain ⟨c0, cs, hch⟩ : ∃ c0 cs, b.channels = c0 :: cs := by
        cases hc : b.channels with
        | nil =>
          exfalso
          have h0 : b.chan0 = [] := by simp [ABuffer.chan0, hc]
          rw [h0] at h1
          simp [trailingQuiet] at h1
        | cons c0 cs => exact ⟨c0, cs, rfl⟩
      have hchan0 : b.chan0 = c0 := by simp [ABuffer.chan0, hch]
      have hc0len : c0.length = b.chan0.length := by rw [hchan0]
      have hTc : trailingQuiet c0 = T := by rw [← hchan0]
      have hlen : (c0.take nl).length = nl := by
        rw [List.length_take]
        omega
      have hb2 : (ABuffer.mk b.sampleRate
            (b.channels.map (fun ch => padTo nl (ch.take nl)))).chan0
          = c0.take nl := by
        simp [ABuffer.chan0, hch, padTo, hlen]
        omega
      have hkey : trailingQuiet (c0.take nl)
          ≤ min (ABuffer.length b - 1 - (b.chan0.length - 1 - T)) K := by
        rw [show nl = c0.length - 1 - trailingQuiet c0 + 1 +
            min (ABuffer.length b - 1 - (b.chan0.length - 1 - T)) K from by omega]
        exact trailingQuiet_take_le c0 _ (by omega) (by omega)
      refine trimSilence_of_small_tail _ (Or.inl ?_)
      rw [hb2]
      have hsr : (ABuffer.mk b.sampleRate
            (b.channels.map (fun ch => padTo nl (ch.take nl)))).sampleRate
          = b.sampleRate := rfl
      rw [hsr]
      exact le_trans hkey (min_le_right _ _)
